import Mathlib

/-
Verification of the stream-reader repository.

The reader engine is embedded from the `StreamReader` class
(`part_004`, second variant: the one importing the external event emitter):
state is a record carrying the `closed` flag, the accumulated
`receivedChunks`, the lock on the underlying source, per-event listener
counts, and a trace of the observable actions performed (event emissions,
source cancellation, lock release, listener cleanup), appended in program
order.  Chunk pulling is modelled by an explicit list of chunks followed by
an optional terminal pull error; a throwing transform is a function into
`Except`.

The byte-extraction splitter is embedded from `extractBytesFromReadable`
(`part_005`): its per-chunk `transform` callback becomes a step function on
an explicit extraction state, folded over the list of source chunks; the
`final` callback becomes a separate end-of-stream check.
-/

namespace StreamReaderSpec

/-- Observable actions performed by a `StreamReader`, in program order. -/
inductive Action (O E : Type) where
  | emitData (chunk : O)
  | emitClose (chunks : List O)
  | emitCancel (msg : String)
  | emitError (e : E)
  | sourceCancel (msg : String)
  | releaseLock
  | clearListeners
  deriving DecidableEq

/-- State of a `StreamReader` instance: the `closed` flag, accumulated
chunks, whether the lock on the underlying stream is held, listener counts
for the four events, and the trace of observable actions so far. -/
structure Reader (O E : Type) where
  closed : Bool
  receivedChunks : List O
  sourceLocked : Bool
  dataCount : Nat
  closeCount : Nat
  cancelCount : Nat
  errorCount : Nat
  trace : List (Action O E)
  deriving DecidableEq

variable {I O E T : Type}

/-- A freshly constructed reader: open, no chunks, lock held on the
stream, given listener counts, empty trace. -/
def mkReader (d c k e : Nat) : Reader O E :=
  { closed := false
    receivedChunks := []
    sourceLocked := true
    dataCount := d
    closeCount := c
    cancelCount := k
    errorCount := e
    trace := [] }

/-- `removeListeners`: removes all listeners for the data, close and
cancel events; error listeners are untouched. -/
def removeListenersFn (s : Reader O E) : Reader O E :=
  { s with
    dataCount := 0
    closeCount := 0
    cancelCount := 0
    trace := s.trace ++ [Action.clearListeners] }

/-- `close`: no-op when already closed; otherwise marks closed, releases
the lock, emits the close event with the received chunks, then removes
listeners. -/
def closeFn (s : Reader O E) : Reader O E :=
  if s.closed then s
  else
    removeListenersFn
      { s with
        closed := true
        sourceLocked := false
        trace := s.trace ++ [Action.releaseLock, Action.emitClose s.receivedChunks] }

/-- Default cancellation reason used when the caller passes no reason
(or, by JS truthiness, an empty string). -/
def defaultCancelMsg : String := "Streming reader cancelled."

/-- The reason string carried by the cancellation exception:
`reason || 'Streming reader cancelled.'`. -/
def cancelMsg : Option String → String
  | none => defaultCancelMsg
  | some r => if r = "" then defaultCancelMsg else r

/-- `cancel`: no-op when already closed; otherwise marks closed, emits the
cancel event with the abort exception, signals cancellation to the source,
releases the lock, then removes listeners. -/
def cancelFn (reason : Option String) (s : Reader O E) : Reader O E :=
  if s.closed then s
  else
    removeListenersFn
      { s with
        closed := true
        sourceLocked := false
        trace := s.trace ++
          [Action.emitCancel (cancelMsg reason),
           Action.sourceCancel (cancelMsg reason),
           Action.releaseLock] }

/-- `error`: marks closed and removes listeners; then rethrows the error
(second component `some e`) when no error listener is registered, and
otherwise emits the error event.  Note: no `closed` guard and no lock
release in the source. -/
def errorFn (e : E) (s : Reader O E) : Reader O E × Option E :=
  let s1 := removeListenersFn { s with closed := true }
  if s1.errorCount = 0 then (s1, some e)
  else ({ s1 with trace := s1.trace ++ [Action.emitError e] }, none)

/-- The body of `read`'s loop: per pulled chunk, apply the transform
(which may throw), append the result to `receivedChunks` and emit a data
event; stops at the first transform error. -/
def readLoop (tr : I → Except E O) : List I → Reader O E → Reader O E × Option E
  | [], s => (s, none)
  | c :: cs, s =>
    match tr c with
    | Except.error e => (s, some e)
    | Except.ok o =>
      readLoop tr cs
        { s with
          receivedChunks := s.receivedChunks ++ [o]
          trace := s.trace ++ [Action.emitData o] }

/-- `read`'s catch branch: hand the error to `error`; a rethrow rejects the
promise, otherwise `read` resolves with the received chunks. -/
def errorResult (e : E) (s : Reader O E) : Reader O E × Except E (List O) :=
  match errorFn e s with
  | (s1, some e2) => (s1, Except.error e2)
  | (s1, none) => (s1, Except.ok s1.receivedChunks)

/-- `read`: drives the pull loop over the source chunks; a clean end
(`tail = none`) triggers `close` and resolves with the received chunks; a
pull error after the chunks (`tail = some e`), like a transform error, is
handed to `error`. -/
def readFn (tr : I → Except E O) (chunks : List I) (tail : Option E)
    (s : Reader O E) : Reader O E × Except E (List O) :=
  match readLoop tr chunks s with
  | (s1, some e) => errorResult e s1
  | (s1, none) =>
    match tail with
    | some e => errorResult e s1
    | none =>
      let s2 := closeFn s1
      (s2, Except.ok s2.receivedChunks)

/-- The chunks `read` accumulates: transformed outputs of the pulled
chunks, in pull order, cut off at the first transform error. -/
def okFront (tr : I → Except E O) : List I → List O
  | [] => []
  | c :: cs =>
    match tr c with
    | Except.error _ => []
    | Except.ok o => o :: okFront tr cs

/-- The chunks actually pulled from the source before the loop stops:
every chunk up to and including the one whose transform throws. -/
def pulledChunks (tr : I → Except E O) : List I → List I
  | [] => []
  | c :: cs =>
    match tr c with
    | Except.error _ => [c]
    | Except.ok _ => c :: pulledChunks tr cs

/-- The first transform error raised by the loop, when any. -/
def loopFailure (tr : I → Except E O) : List I → Option E
  | [] => none
  | c :: cs =>
    match tr c with
    | Except.error e => some e
    | Except.ok _ => loopFailure tr cs

/-- The error a whole `read` run fails with: the first transform error,
or else the terminal pull error. -/
def runFailure (tr : I → Except E O) (chunks : List I) (tail : Option E) :
    Option E :=
  match loopFailure tr chunks with
  | some e => some e
  | none => tail

/-- An invocation of one of the reader's operations. -/
inductive ReaderOp (I O E : Type) where
  | closeOp
  | cancelOp (reason : Option String)
  | errorOp (e : E)
  | readOp (tr : I → Except E O) (chunks : List I) (tail : Option E)

/-- Apply one operation to the reader state. -/
def applyOp : ReaderOp I O E → Reader O E → Reader O E
  | ReaderOp.closeOp, s => closeFn s
  | ReaderOp.cancelOp r, s => cancelFn r s
  | ReaderOp.errorOp e, s => (errorFn e s).1
  | ReaderOp.readOp tr cs t, s => (readFn tr cs t s).1

/-- Apply a sequence of operations to the reader state. -/
def applyOps : List (ReaderOp I O E) → Reader O E → Reader O E
  | [], s => s
  | op :: ops, s => applyOps ops (applyOp op s)

/-- Is this action an emission of the close or cancel event? -/
def isCloseOrCancel : Action O E → Bool
  | Action.emitClose _ => true
  | Action.emitCancel _ => true
  | _ => false

/-- Number of close and cancel event emissions in a trace. -/
def closeCancelEmits (t : List (Action O E)) : Nat :=
  (t.filter isCloseOrCancel).length

/-- Is this action an emission of a terminal event (close, cancel or
error)? -/
def isTerminalEmit : Action O E → Bool
  | Action.emitClose _ => true
  | Action.emitCancel _ => true
  | Action.emitError _ => true
  | _ => false

/-- Number of terminal event emissions in a trace. -/
def terminalEmits (t : List (Action O E)) : Nat :=
  (t.filter isTerminalEmit).length

/-- The error events emitted in a trace. -/
def errorEmits : List (Action O E) → List (Action O E)
  | [] => []
  | a :: t =>
    match a with
    | Action.emitError e => Action.emitError e :: errorEmits t
    | _ => errorEmits t

/-- Configuration of the splitter: `clamp( bytes, 0, Infinity )` on the
requested byte count. -/
def clampTarget (bytes : Int) : Nat := bytes.toNat

/-- The underflow message produced by the splitter's `final` callback. -/
def underflowMsg : String :=
  "The extracted data Buffer length is less than the expected length. This may be caused if given input data length is less than the data length you want to extract."

/-- State of one `extractBytesFromReadable` invocation: the extracted
bytes, the raw byte count read, the one-shot resolution flag, the value
the promise was resolved with (when it was), and the bytes pushed to the
continuation stream, in order. -/
structure ExtractState where
  extractedData : List Nat
  bytesRead : Nat
  resolved : Bool
  resolvedValue : Option (List Nat)
  pushed : List Nat
  deriving DecidableEq

/-- Initial extraction state. -/
def initExtract : ExtractState :=
  { extractedData := []
    bytesRead := 0
    resolved := false
    resolvedValue := none
    pushed := [] }

/-- The splitter's `transform` callback for one incoming chunk, with
`n` the clamped target byte count.  While `bytesRead < n` the chunk is
appended to the extracted data, which is cut off at `n` with any excess
pushed to the continuation; the promise resolves the first time the
extracted data reaches exactly `n` bytes.  Afterwards every chunk is
pushed unmodified. -/
def extractStep (n : Nat) (s : ExtractState) (chunk : List Nat) : ExtractState :=
  if s.bytesRead < n then
    let appended := s.extractedData ++ chunk
    let newBytesRead := s.bytesRead + chunk.length
    let bytesLoss := if n < appended.length then appended.drop n else []
    let extracted := appended.take n
    let newPushed := s.pushed ++ bytesLoss
    if s.resolved = false ∧ extracted.length = n then
      { extractedData := extracted
        bytesRead := newBytesRead
        resolved := true
        resolvedValue := some extracted
        pushed := newPushed }
    else
      { extractedData := extracted
        bytesRead := newBytesRead
        resolved := s.resolved
        resolvedValue := s.resolvedValue
        pushed := newPushed }
  else
    let s1 :=
      if s.resolved = false ∧ s.extractedData.length = n then
        { s with resolved := true, resolvedValue := some s.extractedData }
      else s
    { s1 with
      bytesRead := s1.bytesRead + chunk.length
      pushed := s1.pushed ++ chunk }

/-- Run the splitter's transform over all source chunks. -/
def extractRun (n : Nat) (chunks : List (List Nat)) : ExtractState :=
  chunks.foldl (extractStep n) initExtract

/-- The splitter's `final` callback at end of the source: errors (thus
rejecting the extraction promise) when fewer than `n` bytes were
extracted. -/
def extractFinal (n : Nat) (s : ExtractState) : Option String :=
  if s.extractedData.length < n then some underflowMsg else none

/-- Whether the extraction promise has been resolved after `k` chunks
totalling `len` bytes have been processed: with target `0` the first
chunk resolves it; otherwise it resolves once `n` bytes arrived. -/
def isResolved (n k len : Nat) : Bool :=
  if n = 0 then decide (0 < k) else decide (n ≤ len)

/-- Invariant backing the one-terminal-event property: an open reader has
emitted no close or cancel event, and any reader has emitted at most
one. -/
def onceInv (s : Reader O E) : Prop :=
  (s.closed = false → closeCancelEmits s.trace = 0) ∧
    closeCancelEmits s.trace ≤ 1

/-- Invariant of the extraction run: after `k` chunks whose concatenation
is `seen`, the extracted data is the first `n` bytes of `seen`, the byte
counter is `seen`'s length, the continuation received exactly the rest,
and the one-shot resolution, once it happened, carries the first `n`
bytes. -/
def extInv (n k : Nat) (seen : List Nat) (s : ExtractState) : Prop :=
  s.extractedData = seen.take n ∧
  s.bytesRead = seen.length ∧
  s.pushed = seen.drop n ∧
  s.resolved = isResolved n k seen.length ∧
  s.resolvedValue =
    (if isResolved n k seen.length then some (seen.take n) else none)

/-- Modelled from the spec: the engine configuration of the released
package, whose implementing module is not among the sources here (only
its tests and README exercise it) — an optional per-chunk transform plus
an `inMemory` flag defaulting to `true` that controls in-memory
accumulation. -/
structure EngineOptions (T E : Type) where
  transform : Option (T → Except E T) := none
  inMemory : Bool := true

/-- Modelled from the spec: apply the configured transform, or the
identity when none is configured. -/
def applyConfigured (tr : Option (T → Except E T)) (c : T) : Except E T :=
  match tr with
  | none => Except.ok c
  | some f => f c

/-- Modelled from the spec: the pull loop of the configurable engine —
per chunk, apply the optional transform, append to the accumulator only
when accumulation is enabled, and emit a data event. -/
def readLoopOpt (tr : Option (T → Except E T)) (inMem : Bool) :
    List T → Reader T E → Reader T E × Option E
  | [], s => (s, none)
  | c :: cs, s =>
    match applyConfigured tr c with
    | Except.error e => (s, some e)
    | Except.ok o =>
      readLoopOpt tr inMem cs
        { s with
          receivedChunks :=
            if inMem then s.receivedChunks ++ [o] else s.receivedChunks
          trace := s.trace ++ [Action.emitData o] }

/-- Modelled from the spec: `read()` of the configurable engine — drives
the loop, closes (or hands the failure to the error path) and returns the
accumulated output, or nothing when accumulation is disabled. -/
def readOpt (opts : EngineOptions T E) (chunks : List T) (tail : Option E)
    (s : Reader T E) : Reader T E × Except E (Option (List T)) :=
  match readLoopOpt opts.transform opts.inMemory chunks s with
  | (s1, some e) =>
    match errorFn e s1 with
    | (s2, some e2) => (s2, Except.error e2)
    | (s2, none) =>
      (s2, Except.ok (if opts.inMemory then some s2.receivedChunks else none))
  | (s1, none) =>
    match tail with
    | some e =>
      match errorFn e s1 with
      | (s2, some e2) => (s2, Except.error e2)
      | (s2, none) =>
        (s2, Except.ok (if opts.inMemory then some s2.receivedChunks else none))
    | none =>
      let s2 := closeFn s1
      (s2, Except.ok (if opts.inMemory then some s2.receivedChunks else none))

theorem readLoop_spec (tr : I → Except E O) (cs : List I) (s : Reader O E) :
    (readLoop tr cs s).1.receivedChunks = s.receivedChunks ++ okFront tr cs ∧
    (readLoop tr cs s).2 = loopFailure tr cs ∧
    (readLoop tr cs s).1.closed = s.closed ∧
    (readLoop tr cs s).1.sourceLocked = s.sourceLocked ∧
    (readLoop tr cs s).1.dataCount = s.dataCount ∧
    (readLoop tr cs s).1.closeCount = s.closeCount ∧
    (readLoop tr cs s).1.cancelCount = s.cancelCount ∧
    (readLoop tr cs s).1.errorCount = s.errorCount ∧
    (readLoop tr cs s).1.trace = s.trace ++ (okFront tr cs).map Action.emitData := by
  induction cs generalizing s with
  | nil => simp [readLoop, okFront, loopFailure]
  | cons c cs ih =>
    cases h : tr c with
    | error e => simp [readLoop, okFront, loopFailure, h]
    | ok o =>
      have hih := ih
        { s with
          receivedChunks := s.receivedChunks ++ [o]
          trace := s.trace ++ [Action.emitData o] }
      simp only [readLoop, okFront, loopFailure, h] at hih ⊢
      simpa [List.append_assoc] using hih

theorem closeCancelEmits_append (t1 t2 : List (Action O E)) :
    closeCancelEmits (t1 ++ t2) = closeCancelEmits t1 + closeCancelEmits t2 := by
  simp [closeCancelEmits, List.filter_append]

theorem closeCancelEmits_map_emitData (os : List O) :
    closeCancelEmits (os.map (Action.emitData (E := E))) = 0 := by
  induction os with
  | nil => simp [closeCancelEmits]
  | cons o os ih =>
    simp only [List.map_cons]
    simp [closeCancelEmits, isCloseOrCancel, List.filter] at ih ⊢

theorem closeFn_onceInv (s : Reader O E) (h : onceInv s) : onceInv (closeFn s) := by
  by_cases hc : s.closed
  · simpa [closeFn, hc] using h
  · simp only [Bool.not_eq_true] at hc
    have h0 : closeCancelEmits s.trace = 0 := h.1 hc
    have htr : (closeFn s).trace = s.trace ++
        [Action.releaseLock, Action.emitClose s.receivedChunks, Action.clearListeners] := by
      simp [closeFn, hc, removeListenersFn]
    constructor
    · intro hne
      simp [closeFn, hc, removeListenersFn] at hne
    · rw [htr, closeCancelEmits_append, h0]
      simp [closeCancelEmits, isCloseOrCancel, List.filter]

theorem cancelFn_onceInv (r : Option String) (s : Reader O E) (h : onceInv s) :
    onceInv (cancelFn r s) := by
  by_cases hc : s.closed
  · simpa [cancelFn, hc] using h
  · simp only [Bool.not_eq_true] at hc
    have h0 : closeCancelEmits s.trace = 0 := h.1 hc
    have htr : (cancelFn r s).trace = s.trace ++
        [Action.emitCancel (cancelMsg r), Action.sourceCancel (cancelMsg r),
         Action.releaseLock, Action.clearListeners] := by
      simp [cancelFn, hc, removeListenersFn]
    constructor
    · intro hne
      simp [cancelFn, hc, removeListenersFn] at hne
    · rw [htr, closeCancelEmits_append, h0]
      simp [closeCancelEmits, isCloseOrCancel, List.filter]

theorem errorFn_onceInv (e : E) (s : Reader O E) (h : onceInv s) :
    onceInv (errorFn e s).1 := by
  by_cases hz : s.errorCount = 0
  · simp [errorFn, removeListenersFn, hz, onceInv, closeCancelEmits_append,
      closeCancelEmits, isCloseOrCancel, List.filter]
    exact h.2
  · simp [errorFn, removeListenersFn, hz, onceInv, closeCancelEmits_append,
      closeCancelEmits, isCloseOrCancel, List.filter]
    exact h.2

theorem errorResult_onceInv (e : E) (s : Reader O E) (h : onceInv s) :
    onceInv (errorResult e s).1 := by
  have := errorFn_onceInv e s h
  unfold errorResult
  cases hfe : errorFn e s with
  | mk s1 thrown =>
    cases thrown <;> simpa [hfe] using this

theorem readFn_onceInv (tr : I → Except E O) (chunks : List I) (tail : Option E)
    (s : Reader O E) (h : onceInv s) : onceInv (readFn tr chunks tail s).1 := by
  have hloop := readLoop_spec tr chunks s
  have hinv1 : onceInv (readLoop tr chunks s).1 := by
    constructor
    · intro hne
      rw [hloop.2.2.1] at hne
      rw [hloop.2.2.2.2.2.2.2.2, closeCancelEmits_append,
        closeCancelEmits_map_emitData, h.1 hne]
    · rw [hloop.2.2.2.2.2.2.2.2, closeCancelEmits_append,
        closeCancelEmits_map_emitData]
      simpa using h.2
  unfold readFn
  cases hrl : readLoop tr chunks s with
  | mk s1 failure =>
    rw [hrl] at hinv1
    cases failure with
    | some e => simpa using errorResult_onceInv e s1 hinv1
    | none =>
      cases tail with
      | some e => simpa using errorResult_onceInv e s1 hinv1
      | none => simpa using closeFn_onceInv s1 hinv1

theorem applyOp_onceInv (op : ReaderOp I O E) (s : Reader O E) (h : onceInv s) :
    onceInv (applyOp op s) := by
  cases op with
  | closeOp => exact closeFn_onceInv s h
  | cancelOp r => exact cancelFn_onceInv r s h
  | errorOp e => exact errorFn_onceInv e s h
  | readOp tr cs t => exact readFn_onceInv tr cs t s h

theorem applyOps_onceInv (ops : List (ReaderOp I O E)) (s : Reader O E)
    (h : onceInv s) : onceInv (applyOps ops s) := by
  induction ops generalizing s with
  | nil => simpa [applyOps] using h
  | cons op ops ih => exact ih (applyOp op s) (applyOp_onceInv op s h)

theorem mkReader_onceInv (d c k e : Nat) : onceInv (mkReader d c k e : Reader O E) := by
  simp [onceInv, mkReader, closeCancelEmits]

theorem errorEmits_append (t1 t2 : List (Action O E)) :
    errorEmits (t1 ++ t2) = errorEmits t1 ++ errorEmits t2 := by
  induction t1 with
  | nil => simp [errorEmits]
  | cons a t ih => cases a <;> simp [errorEmits, ih]

theorem errorEmits_map_emitData (os : List O) :
    errorEmits (os.map (Action.emitData (E := E))) = [] := by
  induction os with
  | nil => simp [errorEmits]
  | cons o os ih => simpa [errorEmits] using ih

/-- Full characterization of `read` started on a fresh reader: what it
accumulates, what it resolves or rejects with, and the exact action
trace, in both the clean-end and the failing cases, with and without an
error listener. -/
theorem readFn_spec (tr : I → Except E O) (chunks : List I) (tail : Option E)
    (d c k el : Nat) :
    (readFn tr chunks tail (mkReader d c k el)).1.receivedChunks = okFront tr chunks ∧
    (runFailure tr chunks tail = none →
      (readFn tr chunks tail (mkReader d c k el)).2 = Except.ok (okFront tr chunks) ∧
      (readFn tr chunks tail (mkReader d c k el)).1.trace =
        (okFront tr chunks).map Action.emitData ++
          [Action.releaseLock, Action.emitClose (okFront tr chunks),
           Action.clearListeners]) ∧
    (∀ e, runFailure tr chunks tail = some e →
      (el = 0 →
        (readFn tr chunks tail (mkReader d c k el)).2 = Except.error e ∧
        (readFn tr chunks tail (mkReader d c k el)).1.trace =
          (okFront tr chunks).map Action.emitData ++ [Action.clearListeners]) ∧
      (0 < el →
        (readFn tr chunks tail (mkReader d c k el)).2 =
          Except.ok (okFront tr chunks) ∧
        (readFn tr chunks tail (mkReader d c k el)).1.trace =
          (okFront tr chunks).map Action.emitData ++
            [Action.clearListeners, Action.emitError e])) := by
  have hloop := readLoop_spec tr chunks (mkReader d c k el : Reader O E)
  cases hrl : readLoop tr chunks (mkReader d c k el) with
  | mk s1 fail =>
    rw [hrl] at hloop
    obtain ⟨hrc, hfail, hcl, hsl, hdc, hcc, hkc, hec, htr⟩ := hloop
    simp only [mkReader] at hrc hcl hdc hcc hkc hec htr
    simp only [List.nil_append] at hrc htr
    cases fail with
    | some e0 =>
      have hrf : runFailure tr chunks tail = some e0 := by
        simp [runFailure, ← hfail]
      refine ⟨?_, ?_, ?_⟩
      · simp only [readFn, hrl, errorResult, errorFn, removeListenersFn]
        by_cases hz : s1.errorCount = 0 <;> simp [hz, hrc]
      · intro hnone
        rw [hrf] at hnone
        exact absurd hnone (by simp)
      · intro e hsome
        rw [hrf] at hsome
        injection hsome with he
        subst he
        constructor
        · intro hel0
          have hz : s1.errorCount = 0 := by rw [hec, hel0]
          simp only [readFn, hrl, errorResult, errorFn, removeListenersFn]
          simp [hz, htr]
        · intro helpos
          have hz : ¬ s1.errorCount = 0 := by rw [hec]; omega
          simp only [readFn, hrl, errorResult, errorFn, removeListenersFn]
          simp [hz, htr, hrc, List.append_assoc]
    | none =>
      cases tail with
      | some e0 =>
        have hrf : runFailure tr chunks (some e0) = some e0 := by
          simp [runFailure, ← hfail]
        refine ⟨?_, ?_, ?_⟩
        · simp only [readFn, hrl, errorResult, errorFn, removeListenersFn]
          by_cases hz : s1.errorCount = 0 <;> simp [hz, hrc]
        · intro hnone
          rw [hrf] at hnone
          exact absurd hnone (by simp)
        · intro e hsome
          rw [hrf] at hsome
          injection hsome with he
          subst he
          constructor
          · intro hel0
            have hz : s1.errorCount = 0 := by rw [hec, hel0]
            simp only [readFn, hrl, errorResult, errorFn, removeListenersFn]
            simp [hz, htr]
          · intro helpos
            have hz : ¬ s1.errorCount = 0 := by rw [hec]; omega
            simp only [readFn, hrl, errorResult, errorFn, removeListenersFn]
            simp [hz, htr, hrc, List.append_assoc]
      | none =>
        have hrf : runFailure tr chunks none = none := by
          simp [runFailure, ← hfail]
        refine ⟨?_, ?_, ?_⟩
        · simp only [readFn, hrl, closeFn, hcl, removeListenersFn]
          simp [hrc]
        · intro _
          simp only [readFn, hrl, closeFn, hcl, removeListenersFn]
          simp [hrc, htr, List.append_assoc]
        · intro e hsome
          rw [hrf] at hsome
          exact absurd hsome (by simp)

/-- The outputs `read` accumulates are never more numerous than the
chunks it pulled. -/
theorem okFront_length_le_pulled (tr : I → Except E O) (cs : List I) :
    (okFront tr cs).length ≤ (pulledChunks tr cs).length := by
  induction cs with
  | nil => simp [okFront, pulledChunks]
  | cons c cs ih =>
    cases h : tr c with
    | error e => simp [okFront, pulledChunks, h]
    | ok o => simpa [okFront, pulledChunks, h] using ih

/-- With the identity transform every chunk is accumulated unchanged. -/
theorem okFront_id (cs : List I) :
    okFront (fun x => (Except.ok x : Except E I)) cs = cs := by
  induction cs with
  | nil => simp [okFront]
  | cons c cs ih => simp [okFront, ih]

theorem extractStep_inv (n k : Nat) (seen c : List Nat) (s : ExtractState)
    (h : extInv n k seen s) : extInv n (k + 1) (seen ++ c) (extractStep n s c) := by
  obtain ⟨ed, br, rs, rv, pu⟩ := s
  obtain ⟨h1, h2, h3, h4, h5⟩ := h
  simp only at h1 h2 h3 h4 h5
  subst h1 h2 h3 h4 h5
  by_cases hlt : seen.length < n
  · have hn0 : n ≠ 0 := by omega
    have hres : isResolved n k seen.length = false := by
      simp [isResolved, hn0]
      omega
    have hseen : seen.take n = seen := List.take_of_length_le (by omega)
    have hdropseen : seen.drop n = [] := List.drop_eq_nil_of_le (by omega)
    by_cases hfull : n ≤ seen.length + c.length
    · have hres2 : isResolved n (k + 1) (seen.length + c.length) = true := by
        simp [isResolved, hn0]
        omega
      have hlen : ((seen ++ c).take n).length = n := by
        simp [List.length_take, List.length_append]
        omega
      by_cases hloss : n < (seen ++ c).length
      · simp [extractStep, extInv, hlt, hres, hres2, hseen, hdropseen, hloss,
          hfull, hlen, List.length_append]
      · have hdrop2 : (seen ++ c).drop n = [] := List.drop_eq_nil_of_le (by omega)
        simp [extractStep, extInv, hlt, hres, hres2, hseen, hdropseen, hloss,
          hfull, hlen, hdrop2, List.length_append]
    · have hres2 : isResolved n (k + 1) (seen.length + c.length) = false := by
        simp [isResolved, hn0]
        omega
      have hlen : ((seen ++ c).take n).length ≠ n := by
        simp [List.length_take, List.length_append]
        omega
      have hloss : ¬ n < (seen ++ c).length := by
        simp [List.length_append]
        omega
      have hdrop2 : (seen ++ c).drop n = [] := by
        refine List.drop_eq_nil_of_le ?_
        simp [List.length_append]
        omega
      simp [extractStep, extInv, hlt, hres, hres2, hseen, hdropseen, hloss,
        hfull, hlen, hdrop2, List.length_append]
  · have hn : n ≤ seen.length := by omega
    have htake : (seen ++ c).take n = seen.take n :=
      List.take_append_of_le_length hn
    have hdrop : (seen ++ c).drop n = seen.drop n ++ c := by
      rw [List.drop_append_eq_append_drop]
      have hz : n - seen.length = 0 := by omega
      rw [hz, List.drop_zero]
    by_cases hn0 : n = 0
    · subst hn0
      by_cases hk : 0 < k
      · have hres : isResolved 0 k seen.length = true := by simp [isResolved, hk]
        have hres2 : isResolved 0 (k + 1) (seen.length + c.length) = true := by
          simp [isResolved]
        simp [extractStep, extInv, hlt, hres, hres2, htake, hdrop,
          List.length_append]
      · have hk0 : k = 0 := by omega
        subst hk0
        have hres : isResolved 0 0 seen.length = false := by simp [isResolved]
        have hres2 : isResolved 0 (0 + 1) (seen.length + c.length) = true := by
          simp [isResolved]
        simp [extractStep, extInv, hlt, hres, hres2, htake, hdrop,
          List.length_append]
    · have hres : isResolved n k seen.length = true := by
        simp [isResolved, hn0]
        omega
      have hres2 : isResolved n (k + 1) (seen.length + c.length) = true := by
        simp [isResolved, hn0]
        omega
      simp [extractStep, extInv, hlt, hres, hres2, htake, hdrop,
        List.length_append]

theorem extractFold_inv (n : Nat) (cs : List (List Nat)) (k : Nat)
    (seen : List Nat) (s : ExtractState) (h : extInv n k seen s) :
    extInv n (k + cs.length) (seen ++ cs.flatten) (cs.foldl (extractStep n) s) := by
  induction cs generalizing k seen s with
  | nil => simpa using h
  | cons c cs ih =>
    have hstep := extractStep_inv n k seen c s h
    have hrest := ih (k + 1) (seen ++ c) (extractStep n s c) hstep
    have hassoc : seen ++ c ++ cs.flatten = seen ++ (c :: cs).flatten := by
      simp [List.append_assoc]
    have hcount : k + 1 + cs.length = k + (c :: cs).length := by
      simp [List.length_cons]
      omega
    simp only [List.foldl_cons]
    rw [← hassoc, ← hcount]
    exact hrest

theorem extractRun_inv (n : Nat) (cs : List (List Nat)) :
    extInv n cs.length cs.flatten (extractRun n cs) := by
  have h0 : extInv n 0 [] initExtract := by
    simp [extInv, initExtract, isResolved]
  simpa [extractRun] using extractFold_inv n cs 0 [] initExtract h0

/-- C1 counterexample: on a reader already closed by a completed read
(with one error listener registered), invoking the internal error handler
again is not a no-op: a second terminal event (an error event after the
close event) is emitted, because `error` has no closed-guard. -/
theorem error_after_close_emits_second_terminal_event :
    ((readFn (fun x => Except.ok x) [1] none (mkReader 0 0 0 1 : Reader Nat Nat)).1.closed
        = true) ∧
    terminalEmits
      ((errorFn 5
        ((readFn (fun x => Except.ok x) [1] none
          (mkReader 0 0 0 1 : Reader Nat Nat)).1)).1.trace) = 2 ∧
    (errorFn 5
        ((readFn (fun x => Except.ok x) [1] none
          (mkReader 0 0 0 1 : Reader Nat Nat)).1)).1 ≠
      (readFn (fun x => Except.ok x) [1] none
        (mkReader 0 0 0 1 : Reader Nat Nat)).1 := by
  refine ⟨rfl, rfl, ?_⟩
  decide

/-- C1 (amended): `close` and `cancel` are idempotent no-ops once the
reader is closed, so over any sequence of operations at most one close or
cancel event is emitted; the internal error handler, however, carries no
closed-guard and can emit a further error event after closing. -/
theorem close_cancel_idempotent_terminal_once
    (ops : List (ReaderOp Nat Nat Nat)) (d c k e : Nat)
    (s : Reader Nat Nat) (r : Option String) (h : s.closed = true) :
    closeCancelEmits (applyOps ops (mkReader d c k e)).trace ≤ 1 ∧
    closeFn s = s ∧ cancelFn r s = s := by
  refine ⟨(applyOps_onceInv ops _ (mkReader_onceInv d c k e)).2, ?_, ?_⟩
  · simp [closeFn, h]
  · simp [cancelFn, h]

theorem close_cancel_idempotent_terminal_once_witness :
    closeCancelEmits
      (applyOps
        ([ReaderOp.closeOp, ReaderOp.cancelOp none, ReaderOp.closeOp] :
          List (ReaderOp Nat Nat Nat))
        (mkReader 1 1 1 1 : Reader Nat Nat)).trace ≤ 1 ∧
    closeFn (closeFn (mkReader 1 1 1 1 : Reader Nat Nat)) =
      closeFn (mkReader 1 1 1 1) ∧
    cancelFn (some "stop") (closeFn (mkReader 1 1 1 1 : Reader Nat Nat)) =
      closeFn (mkReader 1 1 1 1) :=
  close_cancel_idempotent_terminal_once
    [ReaderOp.closeOp, ReaderOp.cancelOp none, ReaderOp.closeOp] 1 1 1 1
    (closeFn (mkReader 1 1 1 1)) (some "stop") (by decide)

/-- C2 counterexample: the error transition on an open reader with an
error listener marks it closed but leaves the lock on the underlying
stream held — `error` never calls `releaseLock`. -/
theorem error_transition_keeps_source_locked :
    ((errorFn 3 (mkReader 0 0 0 1 : Reader Nat Nat)).1.closed = true) ∧
    ((errorFn 3 (mkReader 0 0 0 1 : Reader Nat Nat)).1.sourceLocked = true) :=
  ⟨rfl, rfl⟩

/-- C2 (amended): the close and cancel transitions release the underlying
source, but the internal error handler leaves the reader's lock on the
stream exactly as it was. -/
theorem close_cancel_release_source_error_keeps_lock
    (s : Reader Nat Nat) (r : Option String) (e : Nat) (h : s.closed = false) :
    (closeFn s).sourceLocked = false ∧
    (cancelFn r s).sourceLocked = false ∧
    (errorFn e s).1.sourceLocked = s.sourceLocked := by
  refine ⟨?_, ?_, ?_⟩
  · simp [closeFn, removeListenersFn, h]
  · simp [cancelFn, removeListenersFn, h]
  · by_cases hz : s.errorCount = 0 <;>
      simp [errorFn, removeListenersFn, hz]

theorem close_cancel_release_source_error_keeps_lock_witness :
    (closeFn (mkReader 2 2 2 2 : Reader Nat Nat)).sourceLocked = false ∧
    (cancelFn none (mkReader 2 2 2 2 : Reader Nat Nat)).sourceLocked = false ∧
    (errorFn 9 (mkReader 2 2 2 2 : Reader Nat Nat)).1.sourceLocked =
      (mkReader 2 2 2 2 : Reader Nat Nat).sourceLocked :=
  close_cancel_release_source_error_keeps_lock (mkReader 2 2 2 2) none 9 rfl

/-- C5: every terminal transition of an open reader removes all data,
close and cancel listeners and leaves the error listeners untouched. -/
theorem terminal_transition_clears_listeners
    (s : Reader Nat Nat) (r : Option String) (e : Nat) (h : s.closed = false) :
    ((closeFn s).dataCount = 0 ∧ (closeFn s).closeCount = 0 ∧
      (closeFn s).cancelCount = 0 ∧ (closeFn s).errorCount = s.errorCount) ∧
    ((cancelFn r s).dataCount = 0 ∧ (cancelFn r s).closeCount = 0 ∧
      (cancelFn r s).cancelCount = 0 ∧ (cancelFn r s).errorCount = s.errorCount) ∧
    ((errorFn e s).1.dataCount = 0 ∧ (errorFn e s).1.closeCount = 0 ∧
      (errorFn e s).1.cancelCount = 0 ∧ (errorFn e s).1.errorCount = s.errorCount) := by
  refine ⟨?_, ?_, ?_⟩
  · simp [closeFn, removeListenersFn, h]
  · simp [cancelFn, removeListenersFn, h]
  · by_cases hz : s.errorCount = 0 <;>
      simp [errorFn, removeListenersFn, hz]

theorem terminal_transition_clears_listeners_witness :
    ((closeFn (mkReader 3 4 5 6 : Reader Nat Nat)).dataCount = 0 ∧
      (closeFn (mkReader 3 4 5 6 : Reader Nat Nat)).closeCount = 0 ∧
      (closeFn (mkReader 3 4 5 6 : Reader Nat Nat)).cancelCount = 0 ∧
      (closeFn (mkReader 3 4 5 6 : Reader Nat Nat)).errorCount =
        (mkReader 3 4 5 6 : Reader Nat Nat).errorCount) ∧
    ((cancelFn (some "bye") (mkReader 3 4 5 6 : Reader Nat Nat)).dataCount = 0 ∧
      (cancelFn (some "bye") (mkReader 3 4 5 6 : Reader Nat Nat)).closeCount = 0 ∧
      (cancelFn (some "bye") (mkReader 3 4 5 6 : Reader Nat Nat)).cancelCount = 0 ∧
      (cancelFn (some "bye") (mkReader 3 4 5 6 : Reader Nat Nat)).errorCount =
        (mkReader 3 4 5 6 : Reader Nat Nat).errorCount) ∧
    ((errorFn 7 (mkReader 3 4 5 6 : Reader Nat Nat)).1.dataCount = 0 ∧
      (errorFn 7 (mkReader 3 4 5 6 : Reader Nat Nat)).1.closeCount = 0 ∧
      (errorFn 7 (mkReader 3 4 5 6 : Reader Nat Nat)).1.cancelCount = 0 ∧
      (errorFn 7 (mkReader 3 4 5 6 : Reader Nat Nat)).1.errorCount =
        (mkReader 3 4 5 6 : Reader Nat Nat).errorCount) :=
  terminal_transition_clears_listeners (mkReader 3 4 5 6) (some "bye") 7 rfl

/-- C9 counterexample: on a fresh open reader, `cancel()` emits the
cancellation event first and only then signals cancellation to the source
and releases it — not in the claimed signal-release-emit order. -/
theorem cancel_emits_before_source_cancel :
    (cancelFn none (mkReader 0 0 0 0 : Reader Nat Nat)).trace =
      [Action.emitCancel defaultCancelMsg, Action.sourceCancel defaultCancelMsg,
       Action.releaseLock, Action.clearListeners] ∧
    ([Action.emitCancel defaultCancelMsg, Action.sourceCancel defaultCancelMsg,
      Action.releaseLock, Action.clearListeners] : List (Action Nat Nat)) ≠
      [Action.sourceCancel defaultCancelMsg, Action.releaseLock,
       Action.emitCancel defaultCancelMsg, Action.clearListeners] := by
  refine ⟨rfl, ?_⟩
  decide

/-- C9 (amended): `cancel(reason?)` on an open reader performs, in this
order: emit the cancellation event carrying the structured abort value
(default reason text when the argument is omitted), signal cancellation to
the source, release the source, and finally the same listener cleanup as
close. -/
theorem cancel_action_order (s : Reader Nat Nat) (r : Option String)
    (h : s.closed = false) :
    (cancelFn r s).trace = s.trace ++
      [Action.emitCancel (cancelMsg r), Action.sourceCancel (cancelMsg r),
       Action.releaseLock, Action.clearListeners] ∧
    cancelMsg none = defaultCancelMsg ∧
    (cancelFn r s).closed = true ∧
    (cancelFn r s).dataCount = 0 ∧ (cancelFn r s).closeCount = 0 ∧
    (cancelFn r s).cancelCount = 0 := by
  refine ⟨?_, rfl, ?_, ?_, ?_, ?_⟩ <;> simp [cancelFn, removeListenersFn, h]

theorem cancel_action_order_witness :
    (cancelFn (some "enough") (mkReader 1 0 2 0 : Reader Nat Nat)).trace =
      (mkReader 1 0 2 0 : Reader Nat Nat).trace ++
        [Action.emitCancel (cancelMsg (some "enough")),
         Action.sourceCancel (cancelMsg (some "enough")),
         Action.releaseLock, Action.clearListeners] ∧
    cancelMsg none = defaultCancelMsg ∧
    (cancelFn (some "enough") (mkReader 1 0 2 0 : Reader Nat Nat)).closed = true ∧
    (cancelFn (some "enough") (mkReader 1 0 2 0 : Reader Nat Nat)).dataCount = 0 ∧
    (cancelFn (some "enough") (mkReader 1 0 2 0 : Reader Nat Nat)).closeCount = 0 ∧
    (cancelFn (some "enough") (mkReader 1 0 2 0 : Reader Nat Nat)).cancelCount = 0 :=
  cancel_action_order (mkReader 1 0 2 0) (some "enough") rfl

/-- C3: when pulling or transforming fails with error `e` during a fresh
`read()`: with no error listener the call rejects with `e`; with at least
one listener it resolves with the chunks accumulated so far and exactly
one error event, carrying `e`, is emitted. -/
theorem read_error_propagation (tr : Nat → Except Nat Nat) (chunks : List Nat)
    (tail : Option Nat) (e d c k el : Nat)
    (hfail : runFailure tr chunks tail = some e) (hel : 0 < el) :
    (readFn tr chunks tail (mkReader d c k 0)).2 = Except.error e ∧
    (readFn tr chunks tail (mkReader d c k el)).2 =
      Except.ok (okFront tr chunks) ∧
    errorEmits (readFn tr chunks tail (mkReader d c k el)).1.trace =
      [Action.emitError e] := by
  have h0 := ((readFn_spec tr chunks tail d c k 0).2.2 e hfail).1 rfl
  have h1 := ((readFn_spec tr chunks tail d c k el).2.2 e hfail).2 hel
  refine ⟨h0.1, h1.1, ?_⟩
  rw [h1.2, errorEmits_append, errorEmits_map_emitData]
  simp [errorEmits]

theorem read_error_propagation_witness :
    (readFn (fun x => Except.ok (x + 1)) [1, 2] (some 42)
      (mkReader 0 0 0 0 : Reader Nat Nat)).2 = Except.error 42 ∧
    (readFn (fun x => Except.ok (x + 1)) [1, 2] (some 42)
      (mkReader 0 0 0 1 : Reader Nat Nat)).2 =
      Except.ok (okFront (fun x => (Except.ok (x + 1) : Except Nat Nat)) [1, 2]) ∧
    errorEmits (readFn (fun x => Except.ok (x + 1)) [1, 2] (some 42)
      (mkReader 0 0 0 1 : Reader Nat Nat)).1.trace =
      [Action.emitError 42] :=
  read_error_propagation (fun x => Except.ok (x + 1)) [1, 2] (some 42)
    42 0 0 0 1 rfl (by decide)

/-- C4: a fresh `read()` accumulates exactly the transformed chunks in
pull order (the chunks themselves under the identity transform), and the
accumulated output never has more elements than the chunks pulled. -/
theorem read_accumulates_in_pull_order (tr : Nat → Except Nat Nat)
    (chunks : List Nat) (tail : Option Nat) (d c k el : Nat) :
    (readFn tr chunks tail (mkReader d c k el)).1.receivedChunks =
      okFront tr chunks ∧
    (okFront tr chunks).length ≤ (pulledChunks tr chunks).length ∧
    (readFn (fun x => Except.ok x) chunks tail
      (mkReader d c k el)).1.receivedChunks = chunks := by
  refine ⟨(readFn_spec tr chunks tail d c k el).1,
    okFront_length_le_pulled tr chunks, ?_⟩
  rw [(readFn_spec (fun x => Except.ok x) chunks tail d c k el).1, okFront_id]

/-- C6 counterexample: with target 0 and a source that ends without
delivering any chunk, the extraction promise is never resolved (the
`final` callback also raises no error, so it is never rejected either):
resolution only happens inside the per-chunk transform. -/
theorem extract_zero_target_empty_source_never_resolves :
    (extractRun 0 []).resolved = false ∧
    (extractRun 0 []).resolvedValue = none ∧
    extractFinal 0 (extractRun 0 []) = none := ⟨rfl, rfl, rfl⟩

/-- C6 (amended): for any source delivering at least one chunk (always
the case when the target is positive and not exceeded by the total) and
any target at most the total byte length, the extraction resolves with
exactly the first `target` bytes, the extracted buffer concatenated with
the continuation bytes reproduces the whole source, the stream ends
without an underflow error, and the boundary example behaves as stated. -/
theorem extract_round_trip (chunks : List (List Nat)) (n : Nat)
    (h1 : n ≤ chunks.flatten.length) (h2 : chunks ≠ []) :
    (extractRun n chunks).resolvedValue = some (chunks.flatten.take n) ∧
    chunks.flatten.take n ++ (extractRun n chunks).pushed = chunks.flatten ∧
    extractFinal n (extractRun n chunks) = none ∧
    (extractRun 7 [[97, 98, 99], [100, 101, 102, 103, 104],
        [105, 106, 107, 108]]).resolvedValue =
      some [97, 98, 99, 100, 101, 102, 103] ∧
    (extractRun 7 [[97, 98, 99], [100, 101, 102, 103, 104],
        [105, 106, 107, 108]]).pushed = [104, 105, 106, 107, 108] := by
  obtain ⟨he, hb, hp, hr, hv⟩ := extractRun_inv n chunks
  have hres : isResolved n chunks.length chunks.flatten.length = true := by
    by_cases hn0 : n = 0
    · subst hn0
      have : 0 < chunks.length := List.length_pos.mpr h2
      simp [isResolved, this]
    · unfold isResolved
      rw [if_neg hn0]
      exact decide_eq_true h1
  refine ⟨?_, ?_, ?_, rfl, rfl⟩
  · rw [hv, hres]
    simp
  · rw [hp, List.take_append_drop]
  · have hlen : (extractRun n chunks).extractedData.length = n := by
      rw [he, List.length_take]
      omega
    simp [extractFinal, hlen]

theorem extract_round_trip_witness :
    (extractRun 4 [[1, 2, 3], [4, 5]]).resolvedValue =
      some (([[1, 2, 3], [4, 5]] : List (List Nat)).flatten.take 4) ∧
    ([[1, 2, 3], [4, 5]] : List (List Nat)).flatten.take 4 ++
        (extractRun 4 [[1, 2, 3], [4, 5]]).pushed =
      ([[1, 2, 3], [4, 5]] : List (List Nat)).flatten ∧
    extractFinal 4 (extractRun 4 [[1, 2, 3], [4, 5]]) = none ∧
    (extractRun 7 [[97, 98, 99], [100, 101, 102, 103, 104],
        [105, 106, 107, 108]]).resolvedValue =
      some [97, 98, 99, 100, 101, 102, 103] ∧
    (extractRun 7 [[97, 98, 99], [100, 101, 102, 103, 104],
        [105, 106, 107, 108]]).pushed = [104, 105, 106, 107, 108] :=
  extract_round_trip [[1, 2, 3], [4, 5]] 4 (by decide) (by decide)

/-- C7: when the clamped target exceeds the total byte length of the
source, the extraction never resolves and the end-of-stream check fails
with the underflow error, rejecting the promise. -/
theorem extract_underflow_rejects (chunks : List (List Nat)) (b : Int)
    (h : chunks.flatten.length < clampTarget b) :
    (extractRun (clampTarget b) chunks).resolved = false ∧
    (extractRun (clampTarget b) chunks).resolvedValue = none ∧
    extractFinal (clampTarget b) (extractRun (clampTarget b) chunks) =
      some underflowMsg := by
  obtain ⟨he, hb, hp, hr, hv⟩ := extractRun_inv (clampTarget b) chunks
  have hn0 : clampTarget b ≠ 0 := by omega
  have hres : isResolved (clampTarget b) chunks.length chunks.flatten.length
      = false := by
    unfold isResolved
    rw [if_neg hn0]
    exact decide_eq_false (by omega)
  refine ⟨?_, ?_, ?_⟩
  · rw [hr, hres]
  · rw [hv, hres]
    simp
  · have hlen : (extractRun (clampTarget b) chunks).extractedData.length <
        clampTarget b := by
      rw [he, List.length_take]
      omega
    simp [extractFinal, hlen]

theorem extract_underflow_rejects_witness :
    (extractRun (clampTarget 9) [[1, 2, 3], [4, 5]]).resolved = false ∧
    (extractRun (clampTarget 9) [[1, 2, 3], [4, 5]]).resolvedValue = none ∧
    extractFinal (clampTarget 9) (extractRun (clampTarget 9) [[1, 2, 3], [4, 5]]) =
      some underflowMsg :=
  extract_underflow_rejects [[1, 2, 3], [4, 5]] 9 (by decide)

/-- C8 counterexample: a negative target is clamped to 0, but with a
source that ends without delivering any chunk the promise never resolves
at all — resolution waits for the first chunk, so nothing is resolved
immediately. -/
theorem extract_negative_target_empty_source_never_resolves :
    clampTarget (-5) = 0 ∧
    (extractRun (clampTarget (-5)) []).resolved = false ∧
    (extractRun (clampTarget (-5)) []).resolvedValue = none ∧
    extractFinal (clampTarget (-5)) (extractRun (clampTarget (-5)) []) = none :=
  ⟨rfl, rfl, rfl, rfl⟩

/-- C8 (amended): a non-positive target is clamped to 0 and nothing is
extracted: as soon as the first chunk arrives the promise resolves with
an empty extracted buffer, and every source byte is forwarded unmodified
and in order to the continuation stream. -/
theorem extract_nonpositive_target_pass_through (b : Int)
    (chunks : List (List Nat)) (hb : b ≤ 0) (hne : chunks ≠ []) :
    clampTarget b = 0 ∧
    (extractRun (clampTarget b) chunks).resolvedValue = some [] ∧
    (extractRun (clampTarget b) chunks).extractedData = [] ∧
    (extractRun (clampTarget b) chunks).pushed = chunks.flatten := by
  have hz : clampTarget b = 0 := by
    simp [clampTarget, Int.toNat_eq_zero]
    exact hb
  obtain ⟨he, hby, hp, hr, hv⟩ := extractRun_inv (clampTarget b) chunks
  have hres : isResolved (clampTarget b) chunks.length chunks.flatten.length
      = true := by
    have : 0 < chunks.length := List.length_pos.mpr hne
    simp [isResolved, hz, this]
  refine ⟨hz, ?_, ?_, ?_⟩
  · rw [hv, hres]
    simp [hz]
  · rw [he, hz, List.take_zero]
  · rw [hp, hz, List.drop_zero]

theorem extract_nonpositive_target_pass_through_witness :
    clampTarget (-3) = 0 ∧
    (extractRun (clampTarget (-3)) [[10, 11], [12]]).resolvedValue = some [] ∧
    (extractRun (clampTarget (-3)) [[10, 11], [12]]).extractedData = [] ∧
    (extractRun (clampTarget (-3)) [[10, 11], [12]]).pushed =
      ([[10, 11], [12]] : List (List Nat)).flatten :=
  extract_nonpositive_target_pass_through (-3) [[10, 11], [12]]
    (by decide) (by decide)

theorem closeFn_receivedChunks (s : Reader O E) :
    (closeFn s).receivedChunks = s.receivedChunks := by
  by_cases h : s.closed <;> simp [closeFn, removeListenersFn, h]

theorem readLoopOpt_clean (inMem : Bool) (cs : List T) (s : Reader T E) :
    (readLoopOpt (none : Option (T → Except E T)) inMem cs s).2 = none ∧
    (readLoopOpt (none : Option (T → Except E T)) inMem cs s).1.receivedChunks =
      (if inMem then s.receivedChunks ++ cs else s.receivedChunks) ∧
    (readLoopOpt (none : Option (T → Except E T)) inMem cs s).1.closed =
      s.closed := by
  induction cs generalizing s with
  | nil => cases inMem <;> simp [readLoopOpt]
  | cons c cs ih =>
    have hih := ih
      { s with
        receivedChunks :=
          if inMem then s.receivedChunks ++ [c] else s.receivedChunks
        trace := s.trace ++ [Action.emitData c] }
    cases inMem <;>
      simpa [readLoopOpt, applyConfigured, List.append_assoc] using hih

theorem readOpt_clean (opts : EngineOptions T E) (hTr : opts.transform = none)
    (chunks : List T) (d c k el : Nat) :
    (readOpt opts chunks none (mkReader d c k el)).2 =
      Except.ok (if opts.inMemory then some chunks else none) ∧
    (readOpt opts chunks none (mkReader d c k el)).1.receivedChunks =
      (if opts.inMemory then chunks else []) := by
  obtain ⟨h2, hrc, hcl⟩ :=
    readLoopOpt_clean opts.inMemory chunks (mkReader d c k el : Reader T E)
  cases hrl :
      readLoopOpt (none : Option (T → Except E T)) opts.inMemory chunks
        (mkReader d c k el) with
  | mk s1 fail =>
    rw [hrl] at h2 hrc hcl
    simp only at h2
    subst h2
    have hrc2 : (closeFn s1).receivedChunks = s1.receivedChunks :=
      closeFn_receivedChunks s1
    simp only [readOpt, hTr, hrl]
    cases hm : opts.inMemory <;>
      simp_all [mkReader]

/-- C10: the configurable engine is constructed with
`transform?` and `inMemory? default true`; with the default
configuration `read()` resolves with the accumulated output array, while
with accumulation disabled it accumulates nothing and resolves with
nothing. -/
theorem reader_options_in_memory (chunks : List Nat) (d c k el : Nat) :
    (({} : EngineOptions Nat Nat).inMemory = true) ∧
    (({} : EngineOptions Nat Nat).transform = none) ∧
    (readOpt ({} : EngineOptions Nat Nat) chunks none
      (mkReader d c k el)).2 = Except.ok (some chunks) ∧
    (readOpt ({ inMemory := false } : EngineOptions Nat Nat) chunks none
      (mkReader d c k el)).2 = Except.ok none ∧
    (readOpt ({ inMemory := false } : EngineOptions Nat Nat) chunks none
      (mkReader d c k el)).1.receivedChunks = [] := by
  have hdef := readOpt_clean ({} : EngineOptions Nat Nat) rfl chunks d c k el
  have hoff :=
    readOpt_clean ({ inMemory := false } : EngineOptions Nat Nat) rfl chunks d c k el
  simp only at hdef hoff
  exact ⟨rfl, rfl, hdef.1, hoff.1, hoff.2⟩

end StreamReaderSpec
